import Mathlib

/-!
# Verification of the PTO balance-projection engine

Shallow embedding of the pure computational core of `src/PTOCalculator.jsx`:
holiday catalog derivation, accrual scheduling, balance computation,
overdraft check, timeline segmentation and the balance curve.

Modelling conventions:
* A calendar date is represented by its (proleptic Gregorian) day number
  (`Int`): day 1 is 0001-01-01, which is a Monday.  The source manipulates
  JavaScript `Date` objects pinned to noon (`'T12:00:00'`) and ISO date
  strings `yyyy-mm-dd`; both orderings and equalities coincide with the day
  number's, and `date.getDay()` is the day number modulo 7 (0 = Sunday,
  exactly JavaScript's numbering).
* `new Date(year, monthIndex, day)` with arbitrary (overflowing) month/day
  arguments is modelled by `jsDate` below, using 1-based months.
* Fractional hour amounts are modelled as exact rationals (`ℚ`).
-/

/-- Gregorian leap-year test (as JavaScript's calendar implements it). -/
def isLeap (y : Nat) : Bool :=
  (y % 4 == 0 && y % 100 != 0) || (y % 400 == 0)

/-- Number of days strictly before 1-based month `m` in year `y`. -/
def monthOffset (y m : Nat) : Nat :=
  let base : Nat :=
    match m with
    | 1 => 0 | 2 => 31 | 3 => 59 | 4 => 90 | 5 => 120 | 6 => 151
    | 7 => 181 | 8 => 212 | 9 => 243 | 10 => 273 | 11 => 304 | 12 => 334
    | _ => 365
  base + (if isLeap y && decide (3 ≤ m) then 1 else 0)

/-- Number of leap years in `[1, y]`, as an integer. -/
def leapsBefore (y : Nat) : Int :=
  ((y / 4 : Nat) : Int) - ((y / 100 : Nat) : Int) + ((y / 400 : Nat) : Int)

/-- Day number of the calendar date `y-m-d` (1-based month, valid inputs);
day 1 is 0001-01-01. -/
def civil (y m d : Nat) : Int :=
  365 * ((y : Int) - 1) + leapsBefore (y - 1) + (monthOffset y m : Nat) + (d : Int)

/-- JavaScript `new Date(y, m-1, d)` as a day number: months are 1-based
here and may overflow past 12; `d` may be any integer (0 means the last
day of the previous month), exactly JavaScript's normalisation. -/
def jsDate (y m : Nat) (d : Int) : Int :=
  civil (y + (m - 1) / 12) ((m - 1) % 12 + 1) 1 + d - 1

/-- JavaScript `date.getDay()`: 0 = Sunday, …, 6 = Saturday. -/
def jsDay (n : Int) : Int := n % 7

/-- `adjustForWeekend`: move a Sunday two days back and a Saturday one day
back, landing weekend holidays on the preceding Friday. -/
def adjustForWeekend (d : Int) : Int :=
  if jsDay d == 0 then d - 2
  else if jsDay d == 6 then d - 1
  else d

/-- The scanning loop inside `getNthWeekday`: walk forward one day at a
time counting hits of weekday `w`, stopping at the `n`-th hit. -/
def nthWeekdayLoop (w : Int) (n : Nat) : Nat → Int → Nat → Int
  | 0, date, _ => date
  | fuel + 1, date, count =>
    if jsDay date == w then
      (if count + 1 == n then date
       else nthWeekdayLoop w n fuel (date + 1) (count + 1))
    else nthWeekdayLoop w n fuel (date + 1) count

/-- `getNthWeekday(year, month, weekday, n)` (1-based month here). -/
def getNthWeekday (y m : Nat) (w : Int) (n : Nat) : Int :=
  nthWeekdayLoop w n 40 (jsDate y m 1) 0

/-- The scanning loop inside `getLastWeekday`: walk backward from the last
day of the month until weekday `w` is hit. -/
def lastWeekdayLoop (w : Int) : Nat → Int → Int
  | 0, date => date
  | fuel + 1, date =>
    if jsDay date == w then date else lastWeekdayLoop w fuel (date - 1)

/-- `getLastWeekday(year, month, weekday)` (1-based month here). -/
def getLastWeekday (y m : Nat) (w : Int) : Int :=
  lastWeekdayLoop w 7 (jsDate y (m + 1) 0)

/-- The holiday catalog `getHolidays`: for each year 2025–2028 the seven
observed holidays, as (day number, name) pairs, in insertion order.  (The
apostrophe in the New Year label is written with a hex escape.) -/
def holidayList : List (Int × String) :=
  ([2025, 2026, 2027, 2028] : List Nat).flatMap (fun year =>
    [(adjustForWeekend (jsDate year 1 1), "New Year\x27s Day"),
     (getNthWeekday year 1 1 3, "MLK Jr Day"),
     (getLastWeekday year 5 1, "Memorial Day"),
     (adjustForWeekend (jsDate year 7 4), "Independence Day"),
     (getNthWeekday year 9 1 1, "Labor Day"),
     (getNthWeekday year 11 4 4, "Thanksgiving"),
     (adjustForWeekend (jsDate year 12 25), "Christmas Day")])

/-- The catalog's key set (the dates holding a holiday). -/
def holidayDates : List Int := holidayList.map Prod.fst

/-- `isHoliday`. -/
def isHoliday (d : Int) : Bool := holidayDates.contains d

/-- The configuration record (`config` in the source).  `startDate` (the
as-of date, the date the starting balance is authoritative for) is kept as
a year/month/day triple because the source takes it apart with `getMonth`
and `setMonth`; `firstAccrualDate` is a day number. -/
structure Config where
  startingPTO : ℚ
  asOfY : Nat
  asOfM : Nat
  asOfD : Nat
  accrualAmount : ℚ
  accrualCadence : String
  firstAccrualDate : Int
deriving DecidableEq

/-- Day number of `config.startDate`. -/
def Config.asOf (c : Config) : Int := jsDate c.asOfY c.asOfM (c.asOfD : Int)

/-- `endDate` of the holiday look-ahead in `getAllPTODates`:
`startDate` with `setMonth(getMonth() + 12)`, i.e. twelve months later
(with JavaScript's day-of-month overflow normalisation). -/
def Config.lookAheadEnd (c : Config) : Int :=
  jsDate (c.asOfY + 1) c.asOfM (c.asOfD : Int)

/-- `getAllPTODates`: the selected dates together with every catalog
holiday within twelve months after the as-of date, deduplicated (the
source collects them in a `Set`) and sorted ascending. -/
def getAllPTODates (c : Config) (sel : List Int) : List Int :=
  List.insertionSort (· ≤ ·)
    ((sel ++ holidayDates.filter
        (fun h => c.asOf ≤ h && h ≤ c.lookAheadEnd)).dedup)

/-- `getAccrualDates(startDate, endDate)`: step from `firstAccrualDate`
in 14-day increments while `current <= end`, keeping dates `>= start`. -/
def getAccrualDates (c : Config) (startQ endQ : Int) : List Int :=
  if c.firstAccrualDate ≤ endQ then
    (((List.range ((endQ - c.firstAccrualDate).toNat / 14 + 1)).map
        (fun (k : Nat) => c.firstAccrualDate + 14 * (k : Int))).filter
      (fun d => startQ ≤ d))
  else []

/-- `getPTOBalanceAtDate(targetDate)`. -/
def getPTOBalanceAtDate (c : Config) (sel : List Int) (target : Int) : ℚ :=
  if target < c.asOf then c.startingPTO
  else
    c.startingPTO
      + ((getAccrualDates c c.asOf target).length : ℚ) * c.accrualAmount
      - (((getAllPTODates c sel).filter (fun d => d ≤ target)).length : ℚ) * 8

/-- `wouldExceedBalance(date)`. -/
def wouldExceedBalance (c : Config) (sel : List Int) (d : Int) : Bool :=
  let balance := getPTOBalanceAtDate c sel (d - 1)
  let accrualDates := getAccrualDates c c.asOf d
  let balance := if accrualDates.contains d then balance + c.accrualAmount else balance
  let balance := if sel.contains d || isHoliday d then balance + 8 else balance
  decide (balance < 8)

/-- `timelineRange.startDate`: the first day of the as-of date's month. -/
def timelineStart (c : Config) : Int := jsDate c.asOfY c.asOfM 1

/-- `timelineRange.endDate`: the last day of the `tm`-th month of the
window (`new Date(year, month + tm, 0)`). -/
def timelineEnd (c : Config) (tm : Nat) : Int := jsDate c.asOfY (c.asOfM + tm) 0

/-- The accrual dates feeding the chart: those in
`[config.startDate, timeline end]`. -/
def windowAccruals (c : Config) (tm : Nat) : List Int :=
  getAccrualDates c c.asOf (timelineEnd c tm)

/-- The `balanceChanges` map as a function: `accrualAmount` on each
window accrual date plus `-8` on each PTO/holiday date. -/
def balanceChangeAt (c : Config) (sel : List Int) (tm : Nat) (d : Int) : ℚ :=
  (if (windowAccruals c tm).contains d then c.accrualAmount else 0)
    + (if (getAllPTODates c sel).contains d then -8 else 0)

/-- `isWeekendPTO`: a Saturday (resp. Sunday) counts as PTO only when both
the adjacent Friday and Monday are PTO dates. -/
def isWeekendPTO (sortedPTO : List Int) (d : Int) : Bool :=
  if jsDay d == 6 then sortedPTO.contains (d - 1) && sortedPTO.contains (d + 2)
  else if jsDay d == 0 then sortedPTO.contains (d - 2) && sortedPTO.contains (d + 1)
  else false

/-- Per-day PTO classification of the segment walk: weekends use the
bridged-weekend rule, weekdays membership in the PTO date list. -/
def dayIsPTO (sortedPTO : List Int) (d : Int) : Bool :=
  if jsDay d == 0 || jsDay d == 6 then isWeekendPTO sortedPTO d
  else sortedPTO.contains d

/-- A background segment: `type` is `"pto"` or `"work"`. -/
structure Segment where
  type : String
  highBalance : Bool
  left : ℚ
  width : ℚ
deriving DecidableEq

/-- Window-relative chart position of day `d` (a percentage). -/
def pos (startD : Int) (T : ℚ) (d : Int) : ℚ :=
  ((d - startD : Int) : ℚ) / T * 100

/-- The segment object pushed when a run `[s, e)` of days is closed. -/
def mkSeg (startD : Int) (T : ℚ) (t : String) (h : Bool) (s e : Int) : Segment :=
  { type := t
    highBalance := if t == "work" then h else false
    left := pos startD T s
    width := (((e - startD : Int) : ℚ) - ((s - startD : Int) : ℚ)) / T * 100 }

/-- The day-by-day segment-building loop (`while (currentDate <= endDate)`
plus the final close).  `fuel` counts the remaining loop iterations
(`endDate + 1 - currentDate`); the running state is the pending segment
start, current classification, running balance and high-balance flag. -/
def segLoop (isP : Int → Bool) (chg : Int → ℚ) (startD : Int) (T : ℚ) (endD : Int) :
    Nat → Int → Int → String → ℚ → Bool → List Segment
  | 0, _cur, segStart, curT, _curB, curH =>
    if segStart < endD then [mkSeg startD T curT curH segStart endD] else []
  | fuel + 1, cur, segStart, curT, curB, curH =>
    let change := chg cur
    let newBal := if change ≠ 0 then curB + change else curB
    let high := decide (40 ≤ newBal)
    let newT := if isP cur then "pto" else "work"
    if newT ≠ curT ∨ (newT == "work" ∧ high ≠ curH) then
      (if segStart < cur then [mkSeg startD T curT curH segStart cur] else [])
        ++ segLoop isP chg startD T endD fuel (cur + 1) cur newT newBal high
    else
      segLoop isP chg startD T endD fuel (cur + 1) segStart curT newBal curH

/-- `backgroundSegments`: the run-length-merged day classification of the
visible window, as percentage geometry. -/
def backgroundSegments (c : Config) (sel : List Int) (tm : Nat) : List Segment :=
  let startD := timelineStart c
  let endD := timelineEnd c tm
  let T : ℚ := ((endD - startD : Int) : ℚ)
  let sortedPTO := getAllPTODates c sel
  let startingBalance := getPTOBalanceAtDate c sel startD
  segLoop (dayIsPTO sortedPTO) (balanceChangeAt c sel tm) startD T endD
    ((endD + 1 - startD).toNat) startD startD
    (if sortedPTO.contains startD then "pto" else "work")
    startingBalance (decide (40 ≤ startingBalance))

/-- A point of the balance curve. -/
structure BalancePoint where
  date : Int
  balance : ℚ
  position : ℚ
deriving DecidableEq

/-- JavaScript `Math.round` (half away from zero is half up there). -/
def jsRound (q : ℚ) : ℤ := ⌊q + 1 / 2⌋

/-- `allEventDates`: window start, window accrual dates and all PTO dates,
deduplicated, restricted to dates at or after the window start, sorted. -/
def allEventDates (c : Config) (sel : List Int) (tm : Nat) : List Int :=
  List.insertionSort (· ≤ ·)
    ((((timelineStart c :: windowAccruals c tm) ++ getAllPTODates c sel).dedup).filter
      (fun d => timelineStart c ≤ d))

/-- One step of the `allEventDates.forEach` loop building the balance
curve: skip the window start, apply the date's balance change, and push a
(rounded) point when the date is inside the window. -/
def bpStep (c : Config) (sel : List Int) (tm : Nat) :
    ℚ × List BalancePoint → Int → ℚ × List BalancePoint :=
  fun st d =>
    if d = timelineStart c then st
    else
      let bal := st.1 + balanceChangeAt c sel tm d
      if d ≤ timelineEnd c tm then
        (bal, st.2 ++ [{ date := d
                         balance := (jsRound (bal * 100) : ℚ) / 100
                         position := pos (timelineStart c)
                           ((timelineEnd c tm - timelineStart c : Int) : ℚ) d }])
      else (bal, st.2)

/-- `balancePoints`: the event-ordered balance curve, starting at the
window start and ending with a synthesized window-end point when no event
date lands exactly there. -/
def balancePoints (c : Config) (sel : List Int) (tm : Nat) : List BalancePoint :=
  let startD := timelineStart c
  let endD := timelineEnd c tm
  let startingBalance := getPTOBalanceAtDate c sel startD
  let st := (allEventDates c sel tm).foldl (bpStep c sel tm)
    (startingBalance, [{ date := startD, balance := startingBalance, position := 0 }])
  if st.2.getLast?.map BalancePoint.date ≠ some endD then
    st.2 ++ [{ date := endD, balance := st.1, position := 100 }]
  else st.2

/-- The balance obtained by applying the change of every event date other
than the window start to the window-start balance — the full event set,
whether or not an event falls beyond the window end. -/
def eventBalanceTotal (c : Config) (sel : List Int) (tm : Nat) : ℚ :=
  getPTOBalanceAtDate c sel (timelineStart c)
    + (((allEventDates c sel tm).filter (fun d => d ≠ timelineStart c)).map
        (balanceChangeAt c sel tm)).sum

/-- `tilesQ L x y`: the segments of `L` cover `[x, y]` contiguously —
each left edge is the previous right edge, starting at `x`, ending at
`y`. -/
def tilesQ : List Segment → ℚ → ℚ → Prop
  | [], x, y => x = y
  | s :: rest, x, y => s.left = x ∧ tilesQ rest (s.left + s.width) y

/-- The default configuration shipped in the source
(`startingPTO: 23.51, startDate: '2026-01-09', accrualAmount: 11.08,
accrualCadence: 'biweekly', firstAccrualDate: '2026-01-23'`). -/
def cfg0 : Config :=
  { startingPTO := 23.51
    asOfY := 2026, asOfM := 1, asOfD := 9
    accrualAmount := 11.08
    accrualCadence := "biweekly"
    firstAccrualDate := civil 2026 1 23 }

/-! ## Helper lemmas -/

/-- Membership in `getAccrualDates`: exactly the dates on the 14-day grid
anchored at `firstAccrualDate`, inside `[startQ, endQ]`. -/
lemma mem_getAccrualDates (c : Config) (s e d : Int) :
    d ∈ getAccrualDates c s e ↔
      c.firstAccrualDate ≤ d ∧ s ≤ d ∧ d ≤ e ∧ (14 : Int) ∣ d - c.firstAccrualDate := by
  unfold getAccrualDates
  by_cases h : c.firstAccrualDate ≤ e
  · rw [if_pos h]
    constructor
    · intro hd
      obtain ⟨hmem, hs⟩ := List.mem_filter.mp hd
      obtain ⟨k, hk, hEq⟩ := List.mem_map.mp hmem
      rw [List.mem_range] at hk
      rw [decide_eq_true_eq] at hs
      refine ⟨by omega, hs, by omega, ⟨(k : Int), by omega⟩⟩
    · rintro ⟨h1, h2, h3, j, hj⟩
      refine List.mem_filter.mpr ⟨List.mem_map.mpr
        ⟨((d - c.firstAccrualDate) / 14).toNat, List.mem_range.mpr (by omega), by omega⟩,
        by simpa using h2⟩
  · rw [if_neg h]
    simp only [List.not_mem_nil, false_iff]
    rintro ⟨h1, h2, h3, _⟩; omega

/-- The accrual dates are strictly ascending. -/
lemma pairwise_getAccrualDates (c : Config) (s e : Int) :
    (getAccrualDates c s e).Pairwise (· < ·) := by
  unfold getAccrualDates
  split
  · refine List.Pairwise.sublist (List.filter_sublist _) ?_
    exact List.Pairwise.map (fun (k : Nat) => c.firstAccrualDate + 14 * (k : Int))
      (fun a b hab => by
        show c.firstAccrualDate + 14 * (a : Int) < c.firstAccrualDate + 14 * (b : Int)
        omega)
      (List.pairwise_lt_range _)
  · exact List.Pairwise.nil

/-- Membership in `getAllPTODates`: a selected date, or a holiday within
twelve months after the as-of date. -/
lemma mem_getAllPTODates (c : Config) (sel : List Int) (x : Int) :
    x ∈ getAllPTODates c sel ↔
      x ∈ sel ∨ (x ∈ holidayDates ∧ c.asOf ≤ x ∧ x ≤ c.lookAheadEnd) := by
  unfold getAllPTODates
  rw [List.Perm.mem_iff (List.perm_insertionSort _ _)]
  simp [List.mem_dedup, List.mem_filter]

/-- `getAllPTODates` never repeats a date (set semantics). -/
lemma nodup_getAllPTODates (c : Config) (sel : List Int) :
    (getAllPTODates c sel).Nodup := by
  unfold getAllPTODates
  exact (List.Perm.nodup_iff (List.perm_insertionSort _ _)).mpr (List.nodup_dedup _)

/-- `toFinset` ignores `dedup`. -/
lemma list_toFinset_dedup {α : Type} [DecidableEq α] (l : List α) :
    l.dedup.toFinset = l.toFinset := by
  ext a; simp

/-- Counting PTO dates satisfying a predicate is counting the underlying
finite set. -/
lemma length_filter_getAllPTODates (c : Config) (sel : List Int) (p : Int → Bool) :
    ((getAllPTODates c sel).filter p).length
      = ((sel ++ holidayDates.filter
            (fun h => c.asOf ≤ h && h ≤ c.lookAheadEnd)).toFinset.filter
          (fun x => p x = true)).card := by
  unfold getAllPTODates
  rw [(List.Perm.filter p (List.perm_insertionSort _ _)).length_eq]
  rw [← List.toFinset_card_of_nodup ((List.nodup_dedup _).filter p)]
  rw [List.toFinset_filter, list_toFinset_dedup]

/-- `leapsBefore` grows by at most steps of one and never decreases. -/
lemma leapsBefore_le_succ (k : Nat) : leapsBefore k ≤ leapsBefore (k + 1) := by
  unfold leapsBefore
  have h4 := Nat.succ_div k 4
  have h100 := Nat.succ_div k 100
  have h400 := Nat.succ_div k 400
  split_ifs at h4 h100 h400 <;> omega

/-- `leapsBefore` is monotone from the predecessor. -/
lemma leapsBefore_pred_le (y : Nat) : leapsBefore (y - 1) ≤ leapsBefore y := by
  cases y with
  | zero => simp
  | succ k => simpa using leapsBefore_le_succ k

/-- Strict growth of `monthOffset` across months of one year. -/
lemma monthOffset_add_two_le (y m m' : Nat) (h1 : 1 ≤ m) (h2 : m < m') (h3 : m' ≤ 12) :
    monthOffset y m + 2 ≤ monthOffset y m' := by
  have hm11 : m ≤ 11 := by omega
  interval_cases m <;> interval_cases m' <;>
    cases hy : isLeap y <;> simp [monthOffset, hy]

/-- Upper bound on `monthOffset` for genuine months. -/
lemma monthOffset_le (y m : Nat) (h1 : 1 ≤ m) (h2 : m ≤ 12) :
    monthOffset y m ≤ 335 := by
  interval_cases m <;> cases hy : isLeap y <;> simp [monthOffset, hy]

/-- The timeline window is at least one day wide: its start (the first of
the as-of month) precedes its end (the last day of the `tm`-th month). -/
lemma jsDate_start_lt_end (y m tm : Nat) (h1 : 1 ≤ m) (h2 : m ≤ 12)
    (h3 : 1 ≤ tm) (h4 : m + tm ≤ 24) :
    jsDate y m 1 < jsDate y (m + tm) 0 := by
  have hq : (m - 1) / 12 = 0 := by omega
  have hr : (m - 1) % 12 + 1 = m := by omega
  by_cases hM : m + tm ≤ 12
  · have hq' : (m + tm - 1) / 12 = 0 := by omega
    have hr' : (m + tm - 1) % 12 + 1 = m + tm := by omega
    have hmo := monthOffset_add_two_le y m (m + tm) h1 (by omega) hM
    simp only [jsDate, hq, hr, hq', hr', Nat.add_zero, civil]
    omega
  · have hq' : (m + tm - 1) / 12 = 1 := by omega
    have hr' : (m + tm - 1) % 12 + 1 = m + tm - 12 := by omega
    have hmo := monthOffset_le y m h1 h2
    have hlb : leapsBefore (y - 1) ≤ leapsBefore (y + 1 - 1) := by
      simpa using leapsBefore_pred_le y
    simp only [jsDate, hq, hr, hq', hr', Nat.add_zero, civil]
    omega

lemma timelineStart_lt_timelineEnd (c : Config) (tm : Nat)
    (h1 : 1 ≤ c.asOfM) (h2 : c.asOfM ≤ 12) (h3 : tm = 6 ∨ tm = 12) :
    timelineStart c < timelineEnd c tm := by
  exact jsDate_start_lt_end c.asOfY c.asOfM tm h1 h2 (by omega) (by omega)

lemma tilesQ_nil (x y : ℚ) : tilesQ [] x y ↔ x = y := Iff.rfl

lemma tilesQ_cons (s : Segment) (L : List Segment) (x y : ℚ) :
    tilesQ (s :: L) x y ↔ s.left = x ∧ tilesQ L (s.left + s.width) y := Iff.rfl

/-- The widths of a contiguous tiling of `[x, y]` sum to `y - x`. -/
lemma tilesQ_sum_width : ∀ (L : List Segment) (x y : ℚ), tilesQ L x y →
    (L.map Segment.width).sum = y - x
  | [], x, y, h => by
    rw [tilesQ_nil] at h
    simp [h]
  | s :: L, x, y, h => by
    rw [tilesQ_cons] at h
    obtain ⟨h1, h2⟩ := h
    have ih := tilesQ_sum_width L (s.left + s.width) y h2
    rw [List.map_cons, List.sum_cons, ih, h1]
    ring

/-- A closed run's right edge is the close day's position. -/
lemma mkSeg_left_add_width (startD : Int) (T : ℚ) (t : String) (h : Bool) (s e : Int) :
    (mkSeg startD T t h s e).left + (mkSeg startD T t h s e).width = pos startD T e := by
  unfold mkSeg pos
  ring

/-- Loop invariant: from a state whose pending segment starts at
`segStart ≤ cur, endD`, the remaining loop output tiles exactly
`[segStart, endD]` (in window positions). -/
lemma segLoop_tilesQ (isP : Int → Bool) (chg : Int → ℚ) (startD : Int) (T : ℚ)
    (endD : Int) (fuel : Nat) :
    ∀ (cur segStart : Int) (curT : String) (curB : ℚ) (curH : Bool),
      (fuel : Int) = endD + 1 - cur → segStart ≤ cur → segStart ≤ endD →
      tilesQ (segLoop isP chg startD T endD fuel cur segStart curT curB curH)
        (pos startD T segStart) (pos startD T endD) := by
  induction fuel with
  | zero =>
    intro cur segStart curT curB curH hf h1 h2
    unfold segLoop
    split
    · exact ⟨rfl, mkSeg_left_add_width startD T curT curH segStart endD⟩
    · have hse : segStart = endD := by omega
      rw [tilesQ_nil, hse]
  | succ fuel ih =>
    intro cur segStart curT curB curH hf h1 h2
    have hcur : cur ≤ endD := by omega
    simp only [segLoop]
    set newBal := (if chg cur ≠ 0 then curB + chg cur else curB) with hnb
    set high := decide (40 ≤ newBal) with hhi
    set newT := (if isP cur then "pto" else "work") with hnt
    split
    · by_cases hpc : segStart < cur
      · rw [if_pos hpc, List.singleton_append, tilesQ_cons]
        refine ⟨rfl, ?_⟩
        rw [mkSeg_left_add_width]
        exact ih (cur + 1) cur newT newBal high (by omega) (by omega) hcur
      · rw [if_neg hpc]
        have hse : segStart = cur := by omega
        rw [List.nil_append, hse]
        exact ih (cur + 1) cur newT newBal high (by omega) (by omega) hcur
    · exact ih (cur + 1) segStart curT newBal curH (by omega) (by omega) h2

/-- Between boundaries the stored classification does not change: the
first segment the loop will still emit carries the state's type and
(normalised) high-balance flag. -/
lemma segLoop_head? (isP : Int → Bool) (chg : Int → ℚ) (startD : Int) (T : ℚ)
    (endD : Int) (fuel : Nat) :
    ∀ (cur segStart : Int) (curT : String) (curB : ℚ) (curH : Bool),
      segStart < cur →
      ∀ s, (segLoop isP chg startD T endD fuel cur segStart curT curB curH).head? = some s →
        s.type = curT ∧ s.highBalance = (if curT == "work" then curH else false) := by
  induction fuel with
  | zero =>
    intro cur segStart curT curB curH hlt s hs
    unfold segLoop at hs
    split at hs
    · simp only [List.head?_cons, Option.some.injEq] at hs
      subst hs
      exact ⟨rfl, rfl⟩
    · simp at hs
  | succ fuel ih =>
    intro cur segStart curT curB curH hlt s hs
    simp only [segLoop] at hs
    set newBal := (if chg cur ≠ 0 then curB + chg cur else curB) with hnb
    set high := decide (40 ≤ newBal) with hhi
    set newT := (if isP cur then "pto" else "work") with hnt
    split at hs
    · rw [List.singleton_append, List.head?_cons, Option.some.injEq] at hs
      subst hs
      exact ⟨rfl, rfl⟩
    · exact ih (cur + 1) segStart curT newBal curH (by omega) s hs

/-- No two consecutive emitted segments agree on both `type` and
`highBalance`. -/
lemma segLoop_chain' (isP : Int → Bool) (chg : Int → ℚ) (startD : Int) (T : ℚ)
    (endD : Int) (fuel : Nat) :
    ∀ (cur segStart : Int) (curT : String) (curB : ℚ) (curH : Bool),
      List.Chain' (fun a b => ¬(a.type = b.type ∧ a.highBalance = b.highBalance))
        (segLoop isP chg startD T endD fuel cur segStart curT curB curH) := by
  induction fuel with
  | zero =>
    intro cur segStart curT curB curH
    unfold segLoop
    split
    · exact List.chain'_singleton _
    · exact List.chain'_nil
  | succ fuel ih =>
    intro cur segStart curT curB curH
    simp only [segLoop]
    set newBal := (if chg cur ≠ 0 then curB + chg cur else curB) with hnb
    set high := decide (40 ≤ newBal) with hhi
    set newT := (if isP cur then "pto" else "work") with hnt
    split
    · next hb =>
      by_cases hpc : segStart < cur
      · rw [if_pos hpc, List.singleton_append, List.chain'_cons']
        refine ⟨?_, ih (cur + 1) cur newT newBal high⟩
        intro y hy
        rw [Option.mem_def] at hy
        obtain ⟨hty, hhy⟩ := segLoop_head? isP chg startD T endD fuel (cur + 1) cur
          newT newBal high (by omega) y hy
        rintro ⟨ht, hh⟩
        have hmt : (mkSeg startD T curT curH segStart cur).type = curT := rfl
        have hmh : (mkSeg startD T curT curH segStart cur).highBalance
            = (if curT == "work" then curH else false) := rfl
        rcases hb with hne | ⟨hw, hne⟩
        · refine hne ?_
          rw [← hty, ← ht]
          exact hmt
        · have hct : curT = newT := by
            rw [← hty, ← ht]
            exact hmt
          have hcw : (curT == "work") = true := by rw [hct]; exact hw
          have h3 : curH = y.highBalance := by rw [← hh, hmh, if_pos hcw]
          rw [hhy, if_pos hw] at h3
          exact hne h3.symm
      · rw [if_neg hpc, List.nil_append]
        exact ih (cur + 1) cur newT newBal high
    · exact ih (cur + 1) segStart curT newBal curH

/-- Every emitted segment has its `highBalance` flag forced to `false`
unless it is a work segment. -/
lemma segLoop_pto_not_high (isP : Int → Bool) (chg : Int → ℚ) (startD : Int) (T : ℚ)
    (endD : Int) (fuel : Nat) :
    ∀ (cur segStart : Int) (curT : String) (curB : ℚ) (curH : Bool),
      ∀ s ∈ segLoop isP chg startD T endD fuel cur segStart curT curB curH,
        s.type = "pto" → s.highBalance = false := by
  induction fuel with
  | zero =>
    intro cur segStart curT curB curH s hs hp
    unfold segLoop at hs
    split at hs
    · rw [List.mem_singleton] at hs
      subst hs
      have : curT = "pto" := hp
      simp [mkSeg, this]
    · simp at hs
  | succ fuel ih =>
    intro cur segStart curT curB curH s hs hp
    simp only [segLoop] at hs
    set newBal := (if chg cur ≠ 0 then curB + chg cur else curB) with hnb
    set high := decide (40 ≤ newBal) with hhi
    set newT := (if isP cur then "pto" else "work") with hnt
    split at hs
    · rw [List.mem_append] at hs
      rcases hs with hs | hs
      · split at hs
        · rw [List.mem_singleton] at hs
          subst hs
          have : curT = "pto" := hp
          simp [mkSeg, this]
        · simp at hs
      · exact ih (cur + 1) cur newT newBal high s hs hp
    · exact ih (cur + 1) segStart curT newBal curH s hs hp

/-- The running balance of the curve-building fold applies the change of
every processed event date other than the window start. -/
lemma foldl_bpStep_fst (c : Config) (sel : List Int) (tm : Nat) :
    ∀ (l : List Int) (b : ℚ) (pts : List BalancePoint),
      (l.foldl (bpStep c sel tm) (b, pts)).1
        = b + ((l.filter (fun d => d ≠ timelineStart c)).map
            (balanceChangeAt c sel tm)).sum := by
  intro l
  induction l with
  | nil => intro b pts; simp
  | cons d l ih =>
    intro b pts
    rw [List.foldl_cons]
    by_cases hd : d = timelineStart c
    · have hstep : bpStep c sel tm (b, pts) d = (b, pts) := by
        unfold bpStep; rw [if_pos hd]
      rw [hstep, ih, List.filter_cons_of_neg (by simpa using hd)]
    · have hstep : (bpStep c sel tm (b, pts) d).1 = b + balanceChangeAt c sel tm d := by
        unfold bpStep; rw [if_neg hd]; split <;> rfl
      rcases hp : bpStep c sel tm (b, pts) d with ⟨b', pts'⟩
      rw [hp] at hstep
      have hb' : b' = b + balanceChangeAt c sel tm d := hstep
      rw [ih b' pts', hb', List.filter_cons_of_pos (by simpa using hd),
        List.map_cons, List.sum_cons]
      ring

/-- No point the fold produces can carry the window-end date when no
event date is the window end and none of the seed points carries it. -/
lemma foldl_bpStep_last (c : Config) (sel : List Int) (tm : Nat) :
    ∀ (l : List Int) (b : ℚ) (pts : List BalancePoint),
      pts.getLast?.map BalancePoint.date ≠ some (timelineEnd c tm) →
      (∀ d ∈ l, d ≠ timelineEnd c tm) →
      (l.foldl (bpStep c sel tm) (b, pts)).2.getLast?.map BalancePoint.date
        ≠ some (timelineEnd c tm) := by
  intro l
  induction l with
  | nil => intro b pts h1 h2; simpa using h1
  | cons d l ih =>
    intro b pts h1 h2
    rw [List.foldl_cons]
    rcases hp : bpStep c sel tm (b, pts) d with ⟨b', pts'⟩
    refine ih b' pts' ?_ (fun x hx => h2 x (List.mem_cons_of_mem d hx))
    unfold bpStep at hp
    by_cases hd : d = timelineStart c
    · rw [if_pos hd] at hp
      simp only [Prod.mk.injEq] at hp
      rw [← hp.2]
      exact h1
    · rw [if_neg hd] at hp
      split at hp
      · simp only [Prod.mk.injEq] at hp
        rw [← hp.2, List.getLast?_concat]
        simpa using h2 d (List.mem_cons_self d l)
      · simp only [Prod.mk.injEq] at hp
        rw [← hp.2]
        exact h1

/-- A configuration whose as-of date 2026-01-01 is itself a catalog
holiday (New Year 2026 falls on a Thursday). -/
def cfgC1 : Config :=
  { startingPTO := 23.51
    asOfY := 2026, asOfM := 1, asOfD := 1
    accrualAmount := 11.08
    accrualCadence := "biweekly"
    firstAccrualDate := civil 2026 1 23 }

/-- A small-balance configuration: 4 hours on hand as of 2026-02-02, the
first accrual far in the future, no holiday near. -/
def cfgC3 : Config :=
  { startingPTO := 4
    asOfY := 2026, asOfM := 2, asOfD := 2
    accrualAmount := 11.08
    accrualCadence := "biweekly"
    firstAccrualDate := civil 2027 6 1 }

/-- The default configuration with a cadence value other than
`"biweekly"`. -/
def cfgW : Config := { cfg0 with accrualCadence := "weekly" }

/-- Concrete evaluation: under the default configuration with no
selections, the balance on 2026-01-22 is 15.51 (MLK Day 2026-01-19 has
already consumed 8 hours). -/
lemma balanceAt_cfg0_jan22 :
    getPTOBalanceAtDate cfg0 [] (civil 2026 1 22) = 15.51 := by
  unfold getPTOBalanceAtDate
  rw [if_neg (by decide : ¬(civil 2026 1 22 < cfg0.asOf))]
  rw [show getAccrualDates cfg0 cfg0.asOf (civil 2026 1 22) = [] from by decide]
  rw [show List.filter (fun d => d ≤ civil 2026 1 22) (getAllPTODates cfg0 [])
      = [civil 2026 1 19] from by decide]
  norm_num [cfg0]

/-- Concrete evaluation: the balance on 2026-01-23 (the first accrual
date) is 26.59. -/
lemma balanceAt_cfg0_jan23 :
    getPTOBalanceAtDate cfg0 [] (civil 2026 1 23) = 26.59 := by
  unfold getPTOBalanceAtDate
  rw [if_neg (by decide : ¬(civil 2026 1 23 < cfg0.asOf))]
  rw [show getAccrualDates cfg0 cfg0.asOf (civil 2026 1 23) = [civil 2026 1 23]
      from by decide]
  rw [show List.filter (fun d => d ≤ civil 2026 1 23) (getAllPTODates cfg0 [])
      = [civil 2026 1 19] from by decide]
  norm_num [cfg0]

/-- Concrete evaluation: with the as-of date on a holiday, the balance at
the as-of date is the starting balance minus 8. -/
lemma balanceAt_cfgC1_asOf :
    getPTOBalanceAtDate cfgC1 [] cfgC1.asOf = 15.51 := by
  unfold getPTOBalanceAtDate
  rw [if_neg (lt_irrefl cfgC1.asOf)]
  rw [show getAccrualDates cfgC1 cfgC1.asOf cfgC1.asOf = [] from by decide]
  rw [show List.filter (fun d => d ≤ cfgC1.asOf) (getAllPTODates cfgC1 [])
      = [civil 2026 1 1] from by decide]
  norm_num [cfgC1]

/-- Concrete evaluation: the small-balance configuration has 4 hours at
2026-02-02. -/
lemma balanceAt_cfgC3_feb2 :
    getPTOBalanceAtDate cfgC3 [] (civil 2026 2 2) = 4 := by
  unfold getPTOBalanceAtDate
  rw [if_neg (by decide : ¬(civil 2026 2 2 < cfgC3.asOf))]
  rw [show getAccrualDates cfgC3 cfgC3.asOf (civil 2026 2 2) = [] from by decide]
  rw [show List.filter (fun d => d ≤ civil 2026 2 2) (getAllPTODates cfgC3 [])
      = [] from by decide]
  norm_num [cfgC3]

/-! ## Claims -/

/-- C1 (counterexample): `balanceAt(asOfDate) = startingPTO` fails when the
as-of date is itself a holiday: with the default amounts but as-of date
2026-01-01 (New Year's Day), `balanceAt(asOfDate)` is 15.51, not the
starting 23.51 — the holiday's 8-hour usage is counted at the as-of date. -/
theorem balanceAt_asOf_counterexample :
    getPTOBalanceAtDate cfgC1 [] cfgC1.asOf = 15.51
      ∧ getPTOBalanceAtDate cfgC1 [] cfgC1.asOf ≠ cfgC1.startingPTO := by
  refine ⟨balanceAt_cfgC1_asOf, ?_⟩
  rw [balanceAt_cfgC1_asOf]
  norm_num [cfgC1]

/-- C1 (amended): `balanceAt(asOfDate) = startingPTO` holds provided no
accrual-grid date coincides with the as-of date, every selected date is
after the as-of date, and the as-of date is not itself a catalog holiday. -/
theorem balanceAt_asOf_eq_startingPTO (c : Config) (sel : List Int)
    (hacc : ¬(c.firstAccrualDate ≤ c.asOf ∧ (14 : Int) ∣ c.asOf - c.firstAccrualDate))
    (hsel : ∀ x ∈ sel, c.asOf < x)
    (hhol : c.asOf ∉ holidayDates) :
    getPTOBalanceAtDate c sel c.asOf = c.startingPTO := by
  unfold getPTOBalanceAtDate
  rw [if_neg (lt_irrefl c.asOf)]
  have h1 : getAccrualDates c c.asOf c.asOf = [] := by
    rw [List.eq_nil_iff_forall_not_mem]
    intro d hd
    rw [mem_getAccrualDates] at hd
    obtain ⟨ha, hb, hc, hdvd⟩ := hd
    have hda : d = c.asOf := le_antisymm hc hb
    subst hda
    exact hacc ⟨ha, hdvd⟩
  have h2 : (getAllPTODates c sel).filter (fun d => d ≤ c.asOf) = [] := by
    rw [List.eq_nil_iff_forall_not_mem]
    intro x hx
    simp only [List.mem_filter, decide_eq_true_eq] at hx
    obtain ⟨hmem, hle⟩ := hx
    rw [mem_getAllPTODates] at hmem
    rcases hmem with hx1 | ⟨hx2, hx3, _⟩
    · exact absurd hle (not_le.mpr (hsel x hx1))
    · have hxa : x = c.asOf := le_antisymm hle hx3
      subst hxa
      exact hhol hx2
  rw [h1, h2]
  simp

/-- C1 witness: the default configuration satisfies the amended
hypotheses, and its as-of balance is exactly the starting balance. -/
theorem balanceAt_asOf_eq_startingPTO_witness :
    (¬(cfg0.firstAccrualDate ≤ cfg0.asOf ∧ (14 : Int) ∣ cfg0.asOf - cfg0.firstAccrualDate)
      ∧ cfg0.asOf ∉ holidayDates)
    ∧ getPTOBalanceAtDate cfg0 [] cfg0.asOf = cfg0.startingPTO :=
  ⟨⟨by decide, by decide⟩,
    balanceAt_asOf_eq_startingPTO cfg0 [] (by decide)
      (fun x hx => absurd hx (List.not_mem_nil x)) (by decide)⟩

/-- C2 (counterexample): the spec scenario's claimed value fails on the
code: with the default configuration and no selections,
`balanceAt("2026-01-22")` is not 23.51 — the auto-included MLK holiday
2026-01-19 has already consumed 8 hours. -/
theorem default_scenario_claimed_balance_fails :
    getPTOBalanceAtDate cfg0 [] (civil 2026 1 22) ≠ (23.51 : ℚ) := by
  rw [balanceAt_cfg0_jan22]
  norm_num

/-- C2 (amended): with the default configuration and no selections,
`balanceAt("2026-01-22") = 15.51` and `balanceAt("2026-01-23") = 26.59`:
the scenario's 23.51 / 34.59 are each 8 lower because MLK Day 2026-01-19
is auto-included as a PTO day. -/
theorem default_scenario_actual_balances :
    getPTOBalanceAtDate cfg0 [] (civil 2026 1 22) = (15.51 : ℚ)
      ∧ getPTOBalanceAtDate cfg0 [] (civil 2026 1 23) = (26.59 : ℚ) :=
  ⟨balanceAt_cfg0_jan22, balanceAt_cfg0_jan23⟩

/-- C3 (counterexample): the hypothetical +8 is NOT applied for every
queried date.  For the small-balance configuration and the plain workday
2026-02-03 (not selected, not a holiday, no accrual), the code returns
true (balance 4 < 8), while the claimed formula — balance at the previous
day, plus the accrual term, plus an unconditional 8 — yields 12, which is
not below 8. -/
theorem wouldExceedBalance_unconditional_plus8_fails :
    wouldExceedBalance cfgC3 [] (civil 2026 2 3) = true
      ∧ ¬(getPTOBalanceAtDate cfgC3 [] (civil 2026 2 3 - 1)
          + (if civil 2026 2 3 ∈ getAccrualDates cfgC3 cfgC3.asOf (civil 2026 2 3)
              then cfgC3.accrualAmount else 0)
          + 8 < 8) := by
  have hd1 : (civil 2026 2 3 : Int) - 1 = civil 2026 2 2 := by decide
  have hc1 : (getAccrualDates cfgC3 cfgC3.asOf (civil 2026 2 3)).contains
      (civil 2026 2 3) = false := by decide
  have hc2 : (([] : List Int).contains (civil 2026 2 3) || isHoliday (civil 2026 2 3))
      = false := by decide
  constructor
  · simp only [wouldExceedBalance, hc1, hc2, Bool.false_eq_true, if_false]
    rw [hd1, balanceAt_cfgC3_feb2]
    decide
  · rw [if_neg (by decide :
      ¬(civil 2026 2 3 ∈ getAccrualDates cfgC3 cfgC3.asOf (civil 2026 2 3)))]
    rw [hd1, balanceAt_cfgC3_feb2]
    norm_num

/-- C3 (amended): `wouldExceedBalance(d)` is true exactly when the balance
of the previous day, plus one `accrualAmount` when `d` is an accrual-grid
date at or after the as-of date, plus 8 only when `d` is already a
selected date or a holiday, is strictly below 8. -/
theorem wouldExceedBalance_iff (c : Config) (sel : List Int) (d : Int) :
    wouldExceedBalance c sel d = true ↔
      getPTOBalanceAtDate c sel (d - 1)
        + (if c.asOf ≤ d ∧ c.firstAccrualDate ≤ d ∧ (14 : Int) ∣ d - c.firstAccrualDate
            then c.accrualAmount else 0)
        + (if d ∈ sel ∨ d ∈ holidayDates then 8 else 0) < 8 := by
  have hacc : ((getAccrualDates c c.asOf d).contains d = true)
      ↔ (c.asOf ≤ d ∧ c.firstAccrualDate ≤ d ∧ (14 : Int) ∣ d - c.firstAccrualDate) := by
    rw [List.elem_iff, mem_getAccrualDates]
    constructor
    · rintro ⟨ha, hb, _, hd4⟩
      exact ⟨hb, ha, hd4⟩
    · rintro ⟨ha, hb, hd4⟩
      exact ⟨hb, ha, le_refl d, hd4⟩
  have husage : ((sel.contains d || isHoliday d) = true)
      ↔ (d ∈ sel ∨ d ∈ holidayDates) := by
    rw [Bool.or_eq_true, List.elem_iff]
    unfold isHoliday
    rw [List.elem_iff]
  simp only [wouldExceedBalance]
  rw [decide_eq_true_eq]
  by_cases h1 : c.asOf ≤ d ∧ c.firstAccrualDate ≤ d ∧ (14 : Int) ∣ d - c.firstAccrualDate
  · rw [if_pos (hacc.mpr h1), if_pos h1]
    by_cases h2 : d ∈ sel ∨ d ∈ holidayDates
    · rw [if_pos (husage.mpr h2), if_pos h2]
    · rw [if_neg (fun hh => h2 (husage.mp hh)), if_neg h2]
      constructor <;> intro h <;> linarith
  · rw [if_neg (fun hh => h1 (hacc.mp hh)), if_neg h1]
    by_cases h2 : d ∈ sel ∨ d ∈ holidayDates
    · rw [if_pos (husage.mpr h2), if_pos h2]
      constructor <;> intro h <;> linarith
    · rw [if_neg (fun hh => h2 (husage.mp hh)), if_neg h2]
      constructor <;> intro h <;> linarith

/-- C5 (counterexample): a configuration whose cadence is `"weekly"` is
not refused and produces exactly the same (non-empty) 14-day accrual
schedule as the default biweekly configuration — no `UnsupportedCadence`
failure exists in the code. -/
theorem cadence_ignored_counterexample :
    cfgW.accrualCadence ≠ "biweekly"
      ∧ getAccrualDates cfgW cfgW.asOf (civil 2026 3 1) ≠ []
      ∧ getAccrualDates cfgW cfgW.asOf (civil 2026 3 1)
          = getAccrualDates cfg0 cfg0.asOf (civil 2026 3 1) :=
  ⟨by decide, by decide, rfl⟩

/-- C5 (amended): the engine ignores `accrualCadence` entirely: changing
it to any value leaves the accrual dates unchanged, and every produced
accrual date steps by exact multiples of 14 days from
`firstAccrualDate` — the biweekly grid is hard-wired, not validated. -/
theorem getAccrualDates_cadence_irrelevant (c : Config) (cad : String) (s e : Int) :
    getAccrualDates { c with accrualCadence := cad } s e = getAccrualDates c s e
      ∧ (getAccrualDates c s e).all
          (fun d => decide ((14 : Int) ∣ d - c.firstAccrualDate)) = true := by
  refine ⟨rfl, ?_⟩
  rw [List.all_eq_true]
  intro d hd
  simp only [decide_eq_true_eq]
  exact ((mem_getAccrualDates c s e d).mp hd).2.2.2

/-- C6: for every year 2025–2028 the fixed-date holidays (Jan 1, Jul 4,
Dec 25) appear in the catalog weekend-adjusted: a Saturday nominal date is
observed one day earlier, a Sunday nominal date two days earlier (in both
cases the preceding Friday), so every such entry lands on a weekday; in
particular New Year's Day 2028 (a Saturday) is catalogued on Friday
2027-12-31. -/
theorem fixed_holidays_weekend_adjusted :
    (([2025, 2026, 2027, 2028] : List Nat).all (fun y =>
      ([(1, 1), (7, 4), (12, 25)] : List (Nat × Nat)).all (fun md =>
        let nominal := jsDate y md.1 (md.2 : Int)
        let obs := adjustForWeekend nominal
        holidayDates.contains obs
          && !(jsDay obs == 0) && !(jsDay obs == 6)
          && (if jsDay nominal == 6 then obs == nominal - 1 && jsDay obs == 5
              else if jsDay nominal == 0 then obs == nominal - 2 && jsDay obs == 5
              else obs == nominal))) = true)
    ∧ adjustForWeekend (jsDate 2028 1 1) = civil 2027 12 31
    ∧ (civil 2027 12 31, "New Year\x27s Day") ∈ holidayList :=
  ⟨by decide, by decide, by decide⟩

/-- C7: the accrual schedule over any range `[s, e]` is a strictly
ascending list consisting of exactly the dates of the 14-day grid
anchored at `firstAccrualDate` that fall inside the (inclusive) range at
or after the anchor. -/
theorem accrualDates_grid_contract (c : Config) (s e : Int) (hse : s ≤ e) :
    (getAccrualDates c s e).Pairwise (· < ·)
      ∧ (∀ d ∈ getAccrualDates c s e,
          s ≤ d ∧ d ≤ e ∧ c.firstAccrualDate ≤ d ∧ (14 : Int) ∣ d - c.firstAccrualDate)
      ∧ (∀ d : Int, s ≤ d → d ≤ e → c.firstAccrualDate ≤ d →
          (14 : Int) ∣ d - c.firstAccrualDate → d ∈ getAccrualDates c s e) := by
  refine ⟨pairwise_getAccrualDates c s e, ?_, ?_⟩
  · intro d hd
    obtain ⟨h1, h2, h3, h4⟩ := (mem_getAccrualDates c s e d).mp hd
    exact ⟨h2, h3, h1, h4⟩
  · intro d h1 h2 h3 h4
    exact (mem_getAccrualDates c s e d).mpr ⟨h3, h1, h2, h4⟩

/-- C7 witness: the contract instantiated on the default configuration
over `[asOfDate, 2026-03-01]`. -/
theorem accrualDates_grid_contract_witness :
    (cfg0.asOf ≤ civil 2026 3 1)
      ∧ ((getAccrualDates cfg0 cfg0.asOf (civil 2026 3 1)).Pairwise (· < ·)
        ∧ (∀ d ∈ getAccrualDates cfg0 cfg0.asOf (civil 2026 3 1),
            cfg0.asOf ≤ d ∧ d ≤ civil 2026 3 1 ∧ cfg0.firstAccrualDate ≤ d
              ∧ (14 : Int) ∣ d - cfg0.firstAccrualDate)
        ∧ (∀ d : Int, cfg0.asOf ≤ d → d ≤ civil 2026 3 1 → cfg0.firstAccrualDate ≤ d →
            (14 : Int) ∣ d - cfg0.firstAccrualDate →
              d ∈ getAccrualDates cfg0 cfg0.asOf (civil 2026 3 1))) :=
  ⟨by decide, accrualDates_grid_contract cfg0 cfg0.asOf (civil 2026 3 1) (by decide)⟩

/-- C8: selecting a fresh non-holiday weekday `d` at or after the as-of
date lowers the balance at `d` by exactly 8, everything else fixed. -/
theorem adding_selection_decreases_balance (c : Config) (sel : List Int) (d : Int)
    (hd : c.asOf ≤ d) (hsel : d ∉ sel) (hhol : d ∉ holidayDates)
    (hwk : jsDay d ≠ 0 ∧ jsDay d ≠ 6) :
    getPTOBalanceAtDate c (sel ++ [d]) d = getPTOBalanceAtDate c sel d - 8 := by
  unfold getPTOBalanceAtDate
  rw [if_neg (not_lt.mpr hd), if_neg (not_lt.mpr hd)]
  have hlen : ((getAllPTODates c (sel ++ [d])).filter (fun x => x ≤ d)).length
      = ((getAllPTODates c sel).filter (fun x => x ≤ d)).length + 1 := by
    rw [length_filter_getAllPTODates, length_filter_getAllPTODates]
    have hts : ((sel ++ [d])
          ++ holidayDates.filter (fun h => c.asOf ≤ h && h ≤ c.lookAheadEnd)).toFinset
        = insert d ((sel
          ++ holidayDates.filter (fun h => c.asOf ≤ h && h ≤ c.lookAheadEnd)).toFinset) := by
      ext a
      simp only [List.mem_toFinset, List.mem_append, List.mem_singleton,
        Finset.mem_insert]
      tauto
    rw [hts, Finset.filter_insert, if_pos (by simp)]
    refine Finset.card_insert_of_not_mem ?_
    intro hmem
    rw [Finset.mem_filter, List.mem_toFinset, List.mem_append] at hmem
    rcases hmem.1 with hm | hm
    · exact hsel hm
    · exact hhol (List.mem_of_mem_filter hm)
  rw [hlen]
  push_cast
  ring

/-- C8 witness: selecting Tuesday 2026-01-20 under the default
configuration drops that day's balance by exactly 8. -/
theorem adding_selection_decreases_balance_witness :
    (cfg0.asOf ≤ civil 2026 1 20 ∧ civil 2026 1 20 ∉ holidayDates
        ∧ jsDay (civil 2026 1 20) ≠ 0 ∧ jsDay (civil 2026 1 20) ≠ 6)
      ∧ getPTOBalanceAtDate cfg0 ([] ++ [civil 2026 1 20]) (civil 2026 1 20)
          = getPTOBalanceAtDate cfg0 [] (civil 2026 1 20) - 8 :=
  ⟨⟨by decide, by decide, by decide, by decide⟩,
    adding_selection_decreases_balance cfg0 [] (civil 2026 1 20) (by decide)
      (List.not_mem_nil _) (by decide) ⟨by decide, by decide⟩⟩

/-- Every catalog holiday falls on a weekday. -/
lemma holidayDates_weekday : ∀ x ∈ holidayDates, jsDay x ≠ 0 ∧ jsDay x ≠ 6 := by
  decide

/-- C9: a catalog holiday (not user-selected) is auto-included in the PTO
date set exactly when it lies in `[asOfDate, asOfDate + 12 months]`; one
strictly before the as-of date is excluded, classified as a work day by
the segmenter, and contributes to no usage count at any query date. -/
theorem holiday_inclusion_window (c : Config) (sel : List Int) (h : Int)
    (hh : h ∈ holidayDates) (hsel : h ∉ sel) :
    (h ∈ getAllPTODates c sel ↔ (c.asOf ≤ h ∧ h ≤ c.lookAheadEnd))
      ∧ (h < c.asOf →
          h ∉ getAllPTODates c sel
            ∧ dayIsPTO (getAllPTODates c sel) h = false
            ∧ ∀ t : Int, h ∉ (getAllPTODates c sel).filter (fun x => x ≤ t)) := by
  have hmem : h ∈ getAllPTODates c sel ↔ (c.asOf ≤ h ∧ h ≤ c.lookAheadEnd) := by
    rw [mem_getAllPTODates]
    constructor
    · rintro (hx | ⟨_, hx2, hx3⟩)
      · exact absurd hx hsel
      · exact ⟨hx2, hx3⟩
    · intro hx
      exact Or.inr ⟨hh, hx.1, hx.2⟩
  refine ⟨hmem, fun hlt => ?_⟩
  have hnot : h ∉ getAllPTODates c sel := by
    rw [hmem]
    rintro ⟨hx, _⟩
    omega
  obtain ⟨h0, h6⟩ := holidayDates_weekday h hh
  refine ⟨hnot, ?_, fun t hmf => hnot (List.mem_of_mem_filter hmf)⟩
  unfold dayIsPTO
  rw [if_neg (fun hcond => ?_)]
  · rw [Bool.eq_false_iff]
    intro hc
    exact hnot (List.elem_iff.mp hc)
  · rw [Bool.or_eq_true, beq_iff_eq, beq_iff_eq] at hcond
    rcases hcond with hc | hc
    · exact h0 hc
    · exact h6 hc

/-- C9 witness: New Year's Day 2026-01-01 is inside the visible window of
the default configuration (which starts 2026-01-01) but precedes the
as-of date 2026-01-09, so it is excluded, painted as work, and never
counted. -/
theorem holiday_inclusion_window_witness :
    (civil 2026 1 1 ∈ holidayDates ∧ timelineStart cfg0 ≤ civil 2026 1 1
        ∧ civil 2026 1 1 < cfg0.asOf)
      ∧ ((civil 2026 1 1 ∈ getAllPTODates cfg0 []
            ↔ (cfg0.asOf ≤ civil 2026 1 1 ∧ civil 2026 1 1 ≤ cfg0.lookAheadEnd))
        ∧ (civil 2026 1 1 < cfg0.asOf →
            civil 2026 1 1 ∉ getAllPTODates cfg0 []
              ∧ dayIsPTO (getAllPTODates cfg0 []) (civil 2026 1 1) = false
              ∧ ∀ t : Int, civil 2026 1 1 ∉ (getAllPTODates cfg0 []).filter
                  (fun x => x ≤ t))) :=
  ⟨⟨by decide, by decide, by decide⟩,
    holiday_inclusion_window cfg0 [] (civil 2026 1 1) (by decide) (List.not_mem_nil _)⟩

/-- C4: for every configuration (with a genuine calendar month), selection
set and window size (6 or 12 months), the produced segments tile `[0,100]`
with no gaps or overlaps — the first left edge is 0, every left edge is
the previous left plus width, the final right edge is 100, the widths sum
to 100 — no two consecutive segments share the same `(type, highBalance)`
pair, and `highBalance` is forced to `false` on pto segments. -/
theorem backgroundSegments_tiling (c : Config) (sel : List Int) (tm : Nat)
    (hm1 : 1 ≤ c.asOfM) (hm2 : c.asOfM ≤ 12) (htm : tm = 6 ∨ tm = 12) :
    backgroundSegments c sel tm ≠ []
      ∧ tilesQ (backgroundSegments c sel tm) 0 100
      ∧ ((backgroundSegments c sel tm).map Segment.width).sum = 100
      ∧ List.Chain' (fun a b => ¬(a.type = b.type ∧ a.highBalance = b.highBalance))
          (backgroundSegments c sel tm)
      ∧ (∀ s ∈ backgroundSegments c sel tm, s.type = "pto" → s.highBalance = false) := by
  have hlt := timelineStart_lt_timelineEnd c tm hm1 hm2 htm
  have hT : ((timelineEnd c tm - timelineStart c : Int) : ℚ) ≠ 0 := by
    rw [Ne, Int.cast_eq_zero]
    omega
  have hseg : backgroundSegments c sel tm
      = segLoop (dayIsPTO (getAllPTODates c sel)) (balanceChangeAt c sel tm)
          (timelineStart c) ((timelineEnd c tm - timelineStart c : Int) : ℚ)
          (timelineEnd c tm)
          ((timelineEnd c tm + 1 - timelineStart c).toNat)
          (timelineStart c) (timelineStart c)
          (if (getAllPTODates c sel).contains (timelineStart c) then "pto" else "work")
          (getPTOBalanceAtDate c sel (timelineStart c))
          (decide (40 ≤ getPTOBalanceAtDate c sel (timelineStart c))) := rfl
  have htiles := segLoop_tilesQ (dayIsPTO (getAllPTODates c sel)) (balanceChangeAt c sel tm)
      (timelineStart c) ((timelineEnd c tm - timelineStart c : Int) : ℚ) (timelineEnd c tm)
      ((timelineEnd c tm + 1 - timelineStart c).toNat)
      (timelineStart c) (timelineStart c)
      (if (getAllPTODates c sel).contains (timelineStart c) then "pto" else "work")
      (getPTOBalanceAtDate c sel (timelineStart c))
      (decide (40 ≤ getPTOBalanceAtDate c sel (timelineStart c)))
      (by omega) (le_refl _) (by omega)
  rw [← hseg] at htiles
  have hp0 : pos (timelineStart c) ((timelineEnd c tm - timelineStart c : Int) : ℚ)
      (timelineStart c) = (0 : ℚ) := by
    unfold pos
    rw [sub_self]
    norm_num
  have hp1 : pos (timelineStart c) ((timelineEnd c tm - timelineStart c : Int) : ℚ)
      (timelineEnd c tm) = (100 : ℚ) := by
    unfold pos
    rw [div_self hT, one_mul]
  rw [hp0, hp1] at htiles
  have hne : backgroundSegments c sel tm ≠ [] := by
    intro he
    rw [he, tilesQ_nil] at htiles
    norm_num at htiles
  refine ⟨hne, htiles, ?_, ?_, ?_⟩
  · rw [tilesQ_sum_width (backgroundSegments c sel tm) 0 100 htiles]
    norm_num
  · rw [hseg]
    exact segLoop_chain' _ _ _ _ _ _ _ _ _ _ _
  · rw [hseg]
    intro s hs hp
    exact segLoop_pto_not_high _ _ _ _ _ _ _ _ _ _ _ s hs hp

/-- C4 witness: the default configuration's six-month window satisfies
the hypotheses and its segments tile `[0,100]`. -/
theorem backgroundSegments_tiling_witness :
    (1 ≤ cfg0.asOfM ∧ cfg0.asOfM ≤ 12 ∧ ((6 : Nat) = 6 ∨ (6 : Nat) = 12))
      ∧ (backgroundSegments cfg0 [] 6 ≠ []
        ∧ tilesQ (backgroundSegments cfg0 [] 6) 0 100
        ∧ ((backgroundSegments cfg0 [] 6).map Segment.width).sum = 100
        ∧ List.Chain' (fun a b => ¬(a.type = b.type ∧ a.highBalance = b.highBalance))
            (backgroundSegments cfg0 [] 6)
        ∧ (∀ s ∈ backgroundSegments cfg0 [] 6, s.type = "pto" → s.highBalance = false)) :=
  ⟨⟨by decide, by decide, Or.inl rfl⟩,
    backgroundSegments_tiling cfg0 [] 6 (by decide) (by decide) (Or.inl rfl)⟩

/-- C10: when no event date lands exactly on the window's last day, the
synthesized final balance point is `(window end, B, 100)` where `B` is the
window-start balance plus the change of every event date in the full
event set — including PTO/holiday dates beyond the window end — not the
balance as of the window-end date. -/
theorem balancePoints_final_carries_full_event_sum (c : Config) (sel : List Int)
    (tm : Nat) (hm1 : 1 ≤ c.asOfM) (hm2 : c.asOfM ≤ 12) (htm : tm = 6 ∨ tm = 12)
    (hne : timelineEnd c tm ∉ allEventDates c sel tm) :
    (balancePoints c sel tm).getLast?
      = some { date := timelineEnd c tm
               balance := eventBalanceTotal c sel tm
               position := 100 } := by
  have hlt := timelineStart_lt_timelineEnd c tm hm1 hm2 htm
  simp only [balancePoints]
  rcases hst : (allEventDates c sel tm).foldl (bpStep c sel tm)
      (getPTOBalanceAtDate c sel (timelineStart c),
        [{ date := timelineStart c
           balance := getPTOBalanceAtDate c sel (timelineStart c)
           position := 0 }]) with ⟨fb, fpts⟩
  have hcond : fpts.getLast?.map BalancePoint.date ≠ some (timelineEnd c tm) := by
    have hl := foldl_bpStep_last c sel tm (allEventDates c sel tm)
      (getPTOBalanceAtDate c sel (timelineStart c))
      [{ date := timelineStart c
         balance := getPTOBalanceAtDate c sel (timelineStart c)
         position := 0 }]
      (by simp; omega)
      (fun x hx heq => hne (heq ▸ hx))
    rw [hst] at hl
    exact hl
  have hfb := foldl_bpStep_fst c sel tm (allEventDates c sel tm)
    (getPTOBalanceAtDate c sel (timelineStart c))
    [{ date := timelineStart c
       balance := getPTOBalanceAtDate c sel (timelineStart c)
       position := 0 }]
  rw [hst] at hfb
  have hEBT : fb = eventBalanceTotal c sel tm := hfb
  rw [if_pos hcond, List.getLast?_concat, hEBT]

/-- C10 witness: under the default configuration's six-month window no
event falls on 2026-06-30, and the synthesized final point carries the
full-event-set balance. -/
theorem balancePoints_final_carries_full_event_sum_witness :
    (1 ≤ cfg0.asOfM ∧ cfg0.asOfM ≤ 12 ∧ ((6 : Nat) = 6 ∨ (6 : Nat) = 12)
        ∧ timelineEnd cfg0 6 ∉ allEventDates cfg0 [] 6)
      ∧ (balancePoints cfg0 [] 6).getLast?
          = some { date := timelineEnd cfg0 6
                   balance := eventBalanceTotal cfg0 [] 6
                   position := 100 } :=
  ⟨⟨by decide, by decide, Or.inl rfl, by decide⟩,
    balancePoints_final_carries_full_event_sum cfg0 [] 6 (by decide) (by decide)
      (Or.inl rfl) (by decide)⟩
